import Mathlib

/-!
Verification of the smart-fallback RAG core (`src/node/reactnode.py`) of the
Agentic_RAG repository.  Strings are modelled as `List Char`; the generation
service (`llm.invoke`) and the knowledge-lookup service (`wiki_tool.run`) are
modelled as oracle functions returning `Except`: `.ok text` for a normal
return, `.error e` for a raised exception carrying `str(e)`.
-/

namespace AgenticRAG

/-- Characters matched by the character class of `re.findall(r'\b\w+\b', s)`
on ASCII text: letters, digits and the underscore. -/
def isWordChar (c : Char) : Bool :=
  c.isAlphanum || c == '_'

/-- Scanner splitting a character list into its maximal runs of word
characters, as `re.findall(r'\b\w+\b', s)` does.  `acc` holds the current
in-progress word, reversed. -/
def wordsAux : List Char → List Char → List (List Char)
  | [], acc => if acc.isEmpty then [] else [acc.reverse]
  | c :: cs, acc =>
    if isWordChar c then
      wordsAux cs (c :: acc)
    else if acc.isEmpty then
      wordsAux cs []
    else
      acc.reverse :: wordsAux cs []

/-- `re.findall(r'\b\w+\b', s)`: the maximal runs of word characters of `s`. -/
def findWords (s : List Char) : List (List Char) :=
  wordsAux s []

/-- The stop-word set of `RAGNodes.extract_key_terms` (reactnode.py line 142). -/
def stop_words : List (List Char) :=
  ["what".data, "how".data, "why".data, "when".data, "where".data, "who".data,
   "which".data, "is".data, "are".data, "do".data, "does".data, "can".data,
   "will".data, "would".data, "should".data]

/-- The `key_words` list of `RAGNodes.extract_key_terms` (reactnode.py lines
145-146): the maximal word-character runs of the lower-cased question that
are neither stop words nor of length at most 2. -/
def key_words_of (question : List Char) : List (List Char) :=
  (findWords (question.map Char.toLower)).filter
    (fun w => !stop_words.contains w && decide (w.length > 2))

/-- `RAGNodes.extract_key_terms` (reactnode.py lines 137-149): lower-case the
question, take the maximal word-character runs, drop stop words and words of
length at most 2, keep the first five survivors joined by single spaces, and
fall back to the original question when nothing survives. -/
def extract_key_terms (question : List Char) : List Char :=
  let key_words := key_words_of question
  if key_words.isEmpty then question
  else List.intercalate [' '] (key_words.take 5)

/-- The negative-signal phrase list of `RAGNodes.is_incomplete_answer`
(reactnode.py lines 39-55). -/
def incomplete_indicators : List (List Char) :=
  ["no information".data, "not found".data, "cannot find".data,
   "not mentioned".data, "not provided".data, "not available".data,
   "insufficient information".data, "don\x27t have enough".data,
   "context doesn\x27t contain".data, "not in the documents".data,
   "need more context".data, "please provide".data, "i need more".data,
   "cannot answer".data, "unable to answer".data]

/-- `RAGNodes.is_incomplete_answer` (reactnode.py lines 35-58): true when any
indicator phrase occurs as a contiguous substring of the lower-cased answer. -/
def is_incomplete_answer (answer : List Char) : Bool :=
  let answer_lower := answer.map Char.toLower
  incomplete_indicators.any (fun indicator => decide (indicator <:+: answer_lower))

/-- A retrieved chunk, i.e. a langchain `Document`: text plus a string-keyed
metadata mapping.  The `Document` class lives outside `src/`; per the spec a
RetrievedChunk is a unit of text plus provenance metadata (an optional mapping
of string to value), modelled here as an association list. -/
structure Document where
  page_content : List Char
  metadata : List (List Char × List Char)
deriving DecidableEq

/-- Modelled from the spec: the `RAGState` record of `src/state/rag_state.py`,
which is absent from `src/`.  Per the spec a ConversationTurn holds
`question`, `retrieved_chunks` in relevance order, and an optional `answer`
that is absent until the Document Answerer stage completes. -/
structure RAGState where
  question : List Char
  retrieved_docs : List Document
  answer : Option (List Char) := none
deriving DecidableEq

/-- `dict.get(k, dflt)` on the metadata association list. -/
def metaGet (m : List (List Char × List Char)) (k dflt : List Char) : List Char :=
  match m.find? (fun p => p.1 == k) with
  | some p => p.2
  | none => dflt

/-- A generation or lookup service: `.ok text` on normal return, `.error e`
when the call raises an exception rendered as the string `e`. -/
def Svc : Type :=
  List Char → Except (List Char) (List Char)

/-- One labelled context section of `RAGNodes.answer_with_documents`
(reactnode.py lines 69-72): provenance resolves to the `source` metadata
field, else the `title` field, else a synthesized label. -/
def contextPart (i : Nat) (doc : Document) : List Char :=
  let source := metaGet doc.metadata "source".data
      (metaGet doc.metadata "title".data ("Document ".data ++ (Nat.repr i).data))
  "[Document ".data ++ (Nat.repr i).data ++ " - ".data ++ source ++ "]\n".data
    ++ doc.page_content

/-- The enumerated context sections, numbering the documents from `i`. -/
def contextParts : Nat → List Document → List (List Char)
  | _, [] => []
  | i, doc :: docs => contextPart i doc :: contextParts (i + 1) docs

/-- The document-only generation prompt of `RAGNodes.answer_with_documents`
(reactnode.py lines 77-90). -/
def docPrompt (state : RAGState) : List Char :=
  let full_context := List.intercalate "\n\n".data (contextParts 1 state.retrieved_docs)
  "Answer the user\x27s question based on the provided context from uploaded documents.\n\nCONTEXT FROM UPLOADED DOCUMENTS:\n".data
    ++ full_context
    ++ "\n\nUSER QUESTION: ".data ++ state.question
    ++ "\n\nINSTRUCTIONS:\n- Answer based on the provided context above\n- If the context contains the answer, provide a comprehensive response\n- If the context doesn\x27t contain enough information, clearly state \"The uploaded documents don\x27t contain sufficient information about [topic].\"\n- Be specific about what information is missing\n\nANSWER:".data

/-- The sentinel returned when no documents were retrieved
(reactnode.py line 65). -/
def sentinel_no_docs : List Char :=
  "No relevant documents found in uploaded content.".data

/-- `RAGNodes.answer_with_documents` (reactnode.py lines 60-96): sentinel on
empty retrieval, otherwise one generation call whose failure is caught and
rendered as an error string. -/
def answer_with_documents (llm : Svc) (state : RAGState) : List Char :=
  if state.retrieved_docs.isEmpty then sentinel_no_docs
  else
    match llm (docPrompt state) with
    | .ok content => content
    | .error e => "Error processing documents: ".data ++ e

/-- The combined generation prompt of `RAGNodes.answer_with_wikipedia`
(reactnode.py lines 112-129). -/
def combinedPrompt (state : RAGState) (doc_answer wiki_content : List Char) : List Char :=
  "You are answering a question where the user\x27s uploaded documents had limited information.\n\nORIGINAL QUESTION: ".data
    ++ state.question
    ++ "\n\nANSWER FROM UPLOADED DOCUMENTS:\n".data ++ doc_answer
    ++ "\n\nADDITIONAL WIKIPEDIA INFORMATION:\n".data ++ wiki_content
    ++ "\n\nINSTRUCTIONS:\n- First acknowledge what was found in the uploaded documents\n- Then supplement with relevant Wikipedia information\n- Clearly distinguish between information from documents vs. Wikipedia\n- Provide a comprehensive answer combining both sources\n- Format as: \"Based on your uploaded documents: [doc info]. Additionally, from general knowledge: [wiki info].\"\n\nFINAL ANSWER:".data

/-- The note appended to `doc_answer` when the Wikipedia fallback fails
(reactnode.py line 135). -/
def wikiFailNote (doc_answer e : List Char) : List Char :=
  doc_answer
    ++ "\n\nNote: Could not retrieve additional information from Wikipedia due to error: ".data
    ++ e

/-- `RAGNodes.answer_with_wikipedia` (reactnode.py lines 98-135): lookup with
the extracted key terms, then one generation call; the `try` block wraps both
calls, and any failure yields `doc_answer` plus the failure note. -/
def answer_with_wikipedia (llm wiki : Svc) (state : RAGState) (doc_answer : List Char) : List Char :=
  let wiki_query := extract_key_terms state.question
  match wiki wiki_query with
  | .error e => wikiFailNote doc_answer e
  | .ok wiki_content =>
    match llm (combinedPrompt state doc_answer wiki_content) with
    | .ok content => content
    | .error e => wikiFailNote doc_answer e

/-- `RAGNodes.generate_answer` (reactnode.py lines 151-173): document answer
first, Wikipedia fallback exactly when the classifier flags incompleteness,
and a fresh state carrying question and documents over unchanged. -/
def generate_answer (llm wiki : Svc) (state : RAGState) : RAGState :=
  let doc_answer := answer_with_documents llm state
  let final_answer :=
    if is_incomplete_answer doc_answer then
      answer_with_wikipedia llm wiki state doc_answer
    else
      doc_answer
  { question := state.question
    retrieved_docs := state.retrieved_docs
    answer := some final_answer }

/-- `RAGNodes.retrieve_docs` (reactnode.py lines 25-33). -/
def retrieve_docs (retriever : List Char → List Document) (state : RAGState) : RAGState :=
  { question := state.question
    retrieved_docs := retriever state.question
    answer := none }

/-- A deterministic generation-service stub that always succeeds with a
substantive answer containing no negative-signal phrase. -/
def llmOk : Svc :=
  fun _ => .ok "Paris is the capital of France.".data

/-- A deterministic generation-service stub that always raises. -/
def llmErr : Svc :=
  fun _ => .error "boom".data

/-- A deterministic knowledge-lookup stub that always succeeds. -/
def wikiOk : Svc :=
  fun _ => .ok "Wikipedia text about France.".data

/-- A deterministic knowledge-lookup stub that always raises. -/
def wikiErr : Svc :=
  fun _ => .error "net down".data

/-- A concrete retrieved chunk. -/
def doc1 : Document :=
  { page_content := "France facts.".data
    metadata := [("source".data, "notes.txt".data)] }

/-- A concrete turn with one retrieved chunk. -/
def st1 : RAGState :=
  { question := "What is the capital of France and why is it important?".data
    retrieved_docs := [doc1]
    answer := none }

/-- A concrete turn with empty retrieval. -/
def stEmpty : RAGState :=
  { question := "What is quantum computing?".data
    retrieved_docs := []
    answer := none }

section Lemmas

/-- `Char.ofNat` of a valid scalar value round-trips through `Char.toNat`. -/
theorem char_toNat_ofNat_of_valid {n : Nat} (h : n.isValidChar) :
    (Char.ofNat n).toNat = n := by
  unfold Char.ofNat
  rw [dif_pos h]
  rfl

/-- `Char.toLower` unfolded to an `if` on the code point. -/
theorem toLower_eq_ite (c : Char) :
    c.toLower = if c.toNat ≥ 65 ∧ c.toNat ≤ 90 then Char.ofNat (c.toNat + 32) else c :=
  rfl

/-- `Char.toLower` is idempotent. -/
theorem toLower_toLower (c : Char) : c.toLower.toLower = c.toLower := by
  by_cases h : c.toNat ≥ 65 ∧ c.toNat ≤ 90
  · have h1 : c.toLower = Char.ofNat (c.toNat + 32) := by
      rw [toLower_eq_ite, if_pos h]
    have hv : Nat.isValidChar (c.toNat + 32) := Or.inl (by omega)
    have h2 : (Char.ofNat (c.toNat + 32)).toNat = c.toNat + 32 :=
      char_toNat_ofNat_of_valid hv
    rw [h1, toLower_eq_ite, h2, if_neg (by omega)]
  · have h1 : c.toLower = c := by rw [toLower_eq_ite, if_neg h]
    rw [h1, h1]

/-- Characters of a lower-cased string are fixed points of `Char.toLower`. -/
theorem toLower_fixed_of_mem_map {s : List Char} {c : Char}
    (h : c ∈ s.map Char.toLower) : c.toLower = c := by
  rcases List.mem_map.mp h with ⟨d, _, rfl⟩
  exact toLower_toLower d

/-- Every word produced by `wordsAux` is nonempty and consists of word
characters, provided the accumulator does. -/
theorem wordsAux_wordChar :
    ∀ (s acc : List Char), (∀ c ∈ acc, isWordChar c) →
      ∀ w ∈ wordsAux s acc, w ≠ [] ∧ ∀ c ∈ w, isWordChar c := by
  intro s
  induction s with
  | nil =>
    intro acc hacc w hw
    simp only [wordsAux] at hw
    split at hw
    · simp at hw
    · next hne =>
      simp only [List.mem_singleton] at hw
      subst hw
      refine ⟨?_, ?_⟩
      · simp only [ne_eq, List.reverse_eq_nil_iff]
        intro hnil
        rw [hnil] at hne
        simp at hne
      · intro c hc
        exact hacc c (List.mem_reverse.mp hc)
  | cons a as ih =>
    intro acc hacc w hw
    simp only [wordsAux] at hw
    split at hw
    · next ha =>
      refine ih (a :: acc) ?_ w hw
      intro c hc
      rcases List.mem_cons.mp hc with h | h
      · rwa [h]
      · exact hacc c h
    · split at hw
      · exact ih [] (by simp) w hw
      · next hne =>
        rcases List.mem_cons.mp hw with h | h
        · subst h
          refine ⟨?_, ?_⟩
          · simp only [ne_eq, List.reverse_eq_nil_iff]
            intro hnil
            rw [hnil] at hne
            simp at hne
          · intro c hc
            exact hacc c (List.mem_reverse.mp hc)
        · exact ih [] (by simp) w h

/-- Characters of words produced by `wordsAux` come from the input or the
accumulator. -/
theorem wordsAux_chars_subset :
    ∀ (s acc : List Char), ∀ w ∈ wordsAux s acc, ∀ c ∈ w, c ∈ s ∨ c ∈ acc := by
  intro s
  induction s with
  | nil =>
    intro acc w hw c hc
    simp only [wordsAux] at hw
    split at hw
    · simp at hw
    · simp only [List.mem_singleton] at hw
      subst hw
      exact Or.inr (List.mem_reverse.mp hc)
  | cons a as ih =>
    intro acc w hw c hc
    simp only [wordsAux] at hw
    split at hw
    · rcases ih (a :: acc) w hw c hc with h | h
      · exact Or.inl (List.mem_cons_of_mem a h)
      · rcases List.mem_cons.mp h with h2 | h2
        · exact Or.inl (h2 ▸ List.mem_cons_self a as)
        · exact Or.inr h2
    · split at hw
      · rcases ih [] w hw c hc with h | h
        · exact Or.inl (List.mem_cons_of_mem a h)
        · simp at h
      · rcases List.mem_cons.mp hw with h | h
        · subst h
          exact Or.inr (List.mem_reverse.mp hc)
        · rcases ih [] w h c hc with h2 | h2
          · exact Or.inl (List.mem_cons_of_mem a h2)
          · simp at h2

/-- Feeding a run of word characters into `wordsAux` extends the accumulator. -/
theorem wordsAux_append_run {w : List Char} (hw : ∀ c ∈ w, isWordChar c) :
    ∀ (l acc : List Char), wordsAux (w ++ l) acc = wordsAux l (w.reverse ++ acc) := by
  induction w with
  | nil => intro l acc; simp
  | cons c cs ih =>
    intro l acc
    have hc : isWordChar c := hw c (List.mem_cons_self c cs)
    simp only [List.cons_append, wordsAux, hc, if_true, List.append_eq]
    rw [ih (fun d hd => hw d (List.mem_cons_of_mem c hd)) l (c :: acc)]
    simp

/-- A nonempty run of word characters is scanned as a single word. -/
theorem findWords_run {w : List Char} (hne : w ≠ []) (hw : ∀ c ∈ w, isWordChar c) :
    findWords w = [w] := by
  have h1 := wordsAux_append_run hw [] []
  rw [List.append_nil] at h1
  unfold findWords
  rw [h1]
  simp only [wordsAux, List.append_nil, List.reverse_reverse]
  rw [if_neg]
  simp only [List.isEmpty_eq_true, List.reverse_eq_nil_iff]
  exact hne

/-- `intercalate` on a two-or-more-element list peels off the head. -/
theorem intercalate_cons₂ (sep a b : List Char) (l : List (List Char)) :
    List.intercalate sep (a :: b :: l) = a ++ sep ++ List.intercalate sep (b :: l) := by
  simp [List.intercalate, List.append_assoc]

/-- `intercalate` on a singleton returns its element. -/
theorem intercalate_single (sep a : List Char) :
    List.intercalate sep [a] = a := by
  simp [List.intercalate]

/-- Scanning the space-joined concatenation of nonempty all-word-character
words recovers exactly those words. -/
theorem findWords_intercalate :
    ∀ (ws : List (List Char)), (∀ w ∈ ws, w ≠ [] ∧ ∀ c ∈ w, isWordChar c) →
      findWords (List.intercalate [' '] ws) = ws := by
  intro ws
  induction ws with
  | nil => intro _; rfl
  | cons w ws2 ih =>
    intro h
    have hw := h w (List.mem_cons_self w ws2)
    cases ws2 with
    | nil =>
      rw [intercalate_single]
      exact findWords_run hw.1 hw.2
    | cons w2 ws3 =>
      have hrest : findWords (List.intercalate [' '] (w2 :: ws3)) = w2 :: ws3 :=
        ih (fun v hv => h v (List.mem_cons_of_mem w hv))
      rw [intercalate_cons₂]
      have happ : w ++ [' '] ++ List.intercalate [' '] (w2 :: ws3)
          = w ++ (' ' :: List.intercalate [' '] (w2 :: ws3)) := by
        simp
      unfold findWords
      rw [happ, wordsAux_append_run hw.2]
      simp only [List.append_nil]
      simp only [wordsAux]
      rw [if_neg (by decide), if_neg]
      · rw [List.reverse_reverse]
        unfold findWords at hrest
        rw [hrest]
      · simp only [List.isEmpty_eq_true, List.reverse_eq_nil_iff]
        exact hw.1

/-- Every character of a space-joined list of words is a space or belongs to
one of the words. -/
theorem mem_intercalate_space :
    ∀ (ls : List (List Char)) (c : Char), c ∈ List.intercalate [' '] ls →
      c = ' ' ∨ ∃ w ∈ ls, c ∈ w := by
  intro ls
  induction ls with
  | nil => intro c hc; simp [List.intercalate] at hc
  | cons a l ih =>
    intro c hc
    cases l with
    | nil =>
      rw [intercalate_single] at hc
      exact Or.inr ⟨a, List.mem_cons_self a [], hc⟩
    | cons b l2 =>
      rw [intercalate_cons₂] at hc
      rcases List.mem_append.mp hc with h1 | h2
      · rcases List.mem_append.mp h1 with h3 | h4
        · exact Or.inr ⟨a, List.mem_cons_self a (b :: l2), h3⟩
        · simp only [List.mem_singleton] at h4
          exact Or.inl h4
      · rcases ih c h2 with h3 | ⟨w, hw, hcw⟩
        · exact Or.inl h3
        · exact Or.inr ⟨w, List.mem_cons_of_mem a hw, hcw⟩

/-- `extract_key_terms` with its `let` unfolded. -/
theorem extract_key_terms_eq (q : List Char) :
    extract_key_terms q =
      if (key_words_of q).isEmpty then q
      else List.intercalate [' '] ((key_words_of q).take 5) :=
  rfl

/-- Members of `key_words_of q` are nonempty all-word-character runs, fixed
by lower-casing, and pass the stop-word / length filter. -/
theorem key_words_spec {q w : List Char} (hw : w ∈ key_words_of q) :
    w ≠ [] ∧ (∀ c ∈ w, isWordChar c) ∧ (∀ c ∈ w, c.toLower = c) ∧
      (!stop_words.contains w && decide (w.length > 2)) = true := by
  have h1 : w ∈ findWords (q.map Char.toLower) := List.mem_of_mem_filter hw
  have h2 := List.of_mem_filter hw
  have h3 := wordsAux_wordChar (q.map Char.toLower) [] (by simp) w h1
  refine ⟨h3.1, h3.2, ?_, h2⟩
  intro c hc
  rcases wordsAux_chars_subset (q.map Char.toLower) [] w h1 c hc with h | h
  · exact toLower_fixed_of_mem_map h
  · simp at h

/-- Joining a nonempty head word with spaces yields a nonempty list. -/
theorem intercalate_space_ne_nil {w : List Char} (hw : w ≠ []) (l : List (List Char)) :
    List.intercalate [' '] (w :: l) ≠ [] := by
  cases l with
  | nil => rw [intercalate_single]; exact hw
  | cons b l2 =>
    rw [intercalate_cons₂]
    intro hcon
    exact hw (List.append_eq_nil.mp (List.append_eq_nil.mp hcon).1).1

/-- Extracting the key words from a space-join of words that each pass the
filter, consist of word characters, and are fixed by lower-casing recovers
exactly those words. -/
theorem key_words_of_intercalate {t : List (List Char)}
    (ht : ∀ w ∈ t, w ≠ [] ∧ (∀ c ∈ w, isWordChar c) ∧ (∀ c ∈ w, c.toLower = c) ∧
      (!stop_words.contains w && decide (w.length > 2)) = true) :
    key_words_of (List.intercalate [' '] t) = t := by
  have hmap : (List.intercalate [' '] t).map Char.toLower = List.intercalate [' '] t := by
    have hfix : ∀ c ∈ List.intercalate [' '] t, Char.toLower c = c := by
      intro c hc
      rcases mem_intercalate_space t c hc with hsp | ⟨w, hw, hcw⟩
      · rw [hsp]; rfl
      · exact (ht w hw).2.2.1 c hcw
    calc (List.intercalate [' '] t).map Char.toLower
        = (List.intercalate [' '] t).map id := List.map_congr_left hfix
      _ = List.intercalate [' '] t := List.map_id _
  unfold key_words_of
  rw [hmap, findWords_intercalate t (fun w hw => ⟨(ht w hw).1, (ht w hw).2.1⟩)]
  exact List.filter_eq_self.mpr (fun w hw => (ht w hw).2.2.2)

/-- Re-extracting the key words from the joined first five key words of a
question recovers exactly those words. -/
theorem key_words_of_intercalate_take (q : List Char) :
    key_words_of (List.intercalate [' '] ((key_words_of q).take 5))
      = (key_words_of q).take 5 :=
  key_words_of_intercalate
    (fun _ hw => key_words_spec (List.take_subset 5 (key_words_of q) hw))

end Lemmas

/-- C1: the orchestrator `generate_answer` invokes the Wikipedia fallback
exactly when `is_incomplete_answer` flags the document answer: when the
classifier returns true the final answer is the fallback synthesizer's
return value, and when it returns false the final answer is the document
answer verbatim and the result does not depend on the knowledge-lookup
service at all, so the external lookup is never issued. -/
theorem C1_fallback_iff_incomplete (llm wiki : Svc) (state : RAGState) :
    (is_incomplete_answer (answer_with_documents llm state) = true →
      (generate_answer llm wiki state).answer =
        some (answer_with_wikipedia llm wiki state (answer_with_documents llm state))) ∧
    (is_incomplete_answer (answer_with_documents llm state) = false →
      (generate_answer llm wiki state).answer = some (answer_with_documents llm state) ∧
      ∀ wiki2 : Svc, generate_answer llm wiki2 state = generate_answer llm wiki state) := by
  constructor
  · intro h
    simp [generate_answer, h]
  · intro h
    exact ⟨by simp [generate_answer, h], fun wiki2 => by simp [generate_answer, h]⟩

/-- Witness for C1 at a concrete turn whose document answer is substantive:
the final answer is the document answer and two different lookup stubs give
the identical final turn. -/
theorem C1_witness :
    (generate_answer llmOk wikiOk st1).answer = some (answer_with_documents llmOk st1) ∧
    generate_answer llmOk wikiErr st1 = generate_answer llmOk wikiOk st1 := by
  have h := (C1_fallback_iff_incomplete llmOk wikiOk st1).2 (by decide)
  exact ⟨h.1, h.2 wikiErr⟩

/-- C2: on an empty retrieved-chunks sequence `answer_with_documents` returns
the fixed sentinel without consulting the generation service: the result is
the sentinel and is identical for every generation service. -/
theorem C2_empty_retrieval_sentinel (llm llm2 : Svc) (state : RAGState)
    (h : state.retrieved_docs = []) :
    answer_with_documents llm state = sentinel_no_docs ∧
    answer_with_documents llm state = answer_with_documents llm2 state := by
  constructor <;> simp [answer_with_documents, h]

/-- Witness for C2 at the concrete empty-retrieval turn. -/
theorem C2_witness :
    answer_with_documents llmOk stEmpty = sentinel_no_docs ∧
    answer_with_documents llmOk stEmpty = answer_with_documents llmErr stEmpty :=
  C2_empty_retrieval_sentinel llmOk llmErr stEmpty rfl

/-- C3 is refuted by the code: the sentinel "No relevant documents found in
uploaded content." contains none of the fifteen negative-signal phrases, so
`is_incomplete_answer` classifies it as complete, and on a turn with empty
retrieval the orchestrator returns the sentinel as the final answer without
ever triggering the Wikipedia fallback — contrary to the documented intent
that the sentinel be an unambiguous incomplete signal. -/
theorem C3_sentinel_classified_complete :
    is_incomplete_answer sentinel_no_docs = false ∧
    (generate_answer llmOk wikiOk stEmpty).answer = some sentinel_no_docs := by
  constructor
  · decide
  · decide

/-- C4: `is_incomplete_answer` returns true exactly when some phrase of the
fixed indicator list occurs as a contiguous substring of the lower-cased
answer; in particular an occurrence of an indicator in any letter case,
anywhere in the answer, forces true. -/
theorem C4_incomplete_iff_indicator_occurs (a : List Char) :
    (is_incomplete_answer a = true ↔
      ∃ p ∈ incomplete_indicators, p <:+: a.map Char.toLower) ∧
    (∀ s p, p ∈ incomplete_indicators → s.map Char.toLower = p → s <:+: a →
      is_incomplete_answer a = true) := by
  have hiff : is_incomplete_answer a = true ↔
      ∃ p ∈ incomplete_indicators, p <:+: a.map Char.toLower := by
    simp [is_incomplete_answer, List.any_eq_true]
  refine ⟨hiff, ?_⟩
  intro s p hp hsp hsa
  have h1 := hsa.map Char.toLower
  rw [hsp] at h1
  exact hiff.mpr ⟨p, hp, h1⟩

/-- Witness for C4: a mixed-case occurrence of "cannot find" is flagged. -/
theorem C4_witness : is_incomplete_answer "We CANNOT Find it here.".data = true :=
  (C4_incomplete_iff_indicator_occurs "We CANNOT Find it here.".data).2
    "CANNOT Find".data "cannot find".data (by decide) (by decide) (by decide)

/-- C5 as stated is false: on the quoted question the extractor does not
yield "capital france important", because "the" and "and" are neither stop
words nor of length at most 2 and therefore survive the filter. -/
theorem C5_counterexample :
    extract_key_terms "What is the capital of France and why is it important?".data ≠
      "capital france important".data := by
  decide

/-- C5 amended: on the quoted question the extractor yields
"the capital france and important" — the stop words "what", "is", "why" and
the short tokens "of", "it" are removed, the first five survivors are kept
in original order, and the survivors include "the" and "and". -/
theorem C5_extract_capital_example :
    extract_key_terms "What is the capital of France and why is it important?".data =
      "the capital france and important".data := by
  decide

/-- C6 as stated is false: on the empty question no token survives, the
original question is returned unmodified, and that returned value is the
empty string. -/
theorem C6_counterexample : extract_key_terms [] = ([] : List Char) := by
  decide

/-- C6 amended: when no tokens survive the stop-word and length filter,
`extract_key_terms` returns the original question unmodified; consequently
the result is empty only when the question itself is empty, i.e. the
extractor never returns the empty string on a nonempty question. -/
theorem C6_no_survivors_original (q : List Char) :
    (key_words_of q = [] → extract_key_terms q = q) ∧
    (q ≠ [] → extract_key_terms q ≠ []) := by
  constructor
  · intro h
    rw [extract_key_terms_eq, if_pos (by simp [h])]
  · intro hq
    rw [extract_key_terms_eq]
    by_cases h : (key_words_of q).isEmpty
    · rw [if_pos h]; exact hq
    · rw [if_neg h]
      have hne : key_words_of q ≠ [] := by
        intro hnil
        rw [hnil] at h
        simp at h
      rcases List.exists_cons_of_ne_nil hne with ⟨w, t, hwt⟩
      have hw : w ∈ key_words_of q := hwt ▸ List.mem_cons_self w t
      have hwne : w ≠ [] := (key_words_spec hw).1
      rw [hwt]
      show List.intercalate [' '] (w :: t.take 4) ≠ []
      exact intercalate_space_ne_nil hwne _

/-- Witness for C6 at "is it", whose two tokens are both filtered out. -/
theorem C6_witness :
    extract_key_terms "is it".data = "is it".data ∧ extract_key_terms "is it".data ≠ [] := by
  have h := C6_no_survivors_original "is it".data
  exact ⟨h.1 (by decide), h.2 (by decide)⟩

/-- C7: with nonempty retrieval and a generation service that raises, the
document answerer catches the failure and returns the prefixed error string
"Error processing documents: " followed by the failure detail; being a total
function of the service outcome, it propagates no exception. -/
theorem C7_generation_failure_caught (llm : Svc) (state : RAGState) (e : List Char)
    (hdocs : state.retrieved_docs ≠ [])
    (herr : llm (docPrompt state) = .error e) :
    answer_with_documents llm state = "Error processing documents: ".data ++ e := by
  unfold answer_with_documents
  rw [if_neg (by simp [hdocs]), herr]

/-- Witness for C7 at the concrete one-chunk turn and raising stub. -/
theorem C7_witness :
    answer_with_documents llmErr st1 = "Error processing documents: ".data ++ "boom".data :=
  C7_generation_failure_caught llmErr st1 "boom".data (by decide) rfl

/-- C8: when the Wikipedia lookup raises, or the lookup succeeds and the
subsequent generation call raises, the fallback synthesizer returns the
original document answer with the failure note appended; the document
answer is a prefix of the result and the result is never empty. -/
theorem C8_fallback_failure_keeps_doc_answer (llm wiki : Svc) (state : RAGState)
    (doc_answer e : List Char) :
    ((wiki (extract_key_terms state.question) = .error e →
        answer_with_wikipedia llm wiki state doc_answer = wikiFailNote doc_answer e) ∧
      (∀ w, wiki (extract_key_terms state.question) = .ok w →
        llm (combinedPrompt state doc_answer w) = .error e →
        answer_with_wikipedia llm wiki state doc_answer = wikiFailNote doc_answer e)) ∧
    (doc_answer <+: wikiFailNote doc_answer e ∧ wikiFailNote doc_answer e ≠ []) := by
  refine ⟨⟨?_, ?_⟩, ?_, ?_⟩
  · intro h
    simp only [answer_with_wikipedia]
    rw [h]
  · intro w hw hl
    simp only [answer_with_wikipedia]
    rw [hw]
    show (match llm (combinedPrompt state doc_answer w) with
      | .ok content => content
      | .error e => wikiFailNote doc_answer e) = wikiFailNote doc_answer e
    rw [hl]
  · refine ⟨"\n\nNote: Could not retrieve additional information from Wikipedia due to error: ".data ++ e, ?_⟩
    simp [wikiFailNote, List.append_assoc]
  · intro hcon
    have h2 := (List.append_eq_nil.mp (List.append_eq_nil.mp hcon).1).2
    exact absurd h2 (by decide)

/-- Witness for C8 at a raising lookup stub. -/
theorem C8_witness :
    answer_with_wikipedia llmOk wikiErr st1 "partial doc answer".data =
      wikiFailNote "partial doc answer".data "net down".data := by
  have h := C8_fallback_failure_keeps_doc_answer llmOk wikiErr st1
    "partial doc answer".data "net down".data
  exact h.1.1 rfl

/-- C9: the orchestrator returns a fresh turn whose question and retrieved
chunks are those of the input turn, with only the answer field set; likewise
the retrieval stage carries the question over unchanged. The embedding is a
pure function, so the input turn itself is never modified. -/
theorem C9_turn_frame (llm wiki : Svc) (state : RAGState) :
    (generate_answer llm wiki state).question = state.question ∧
    (generate_answer llm wiki state).retrieved_docs = state.retrieved_docs ∧
    (∃ a, (generate_answer llm wiki state).answer = some a) ∧
    ∀ retriever, (retrieve_docs retriever state).question = state.question :=
  ⟨rfl, rfl, ⟨_, rfl⟩, fun _ => rfl⟩

/-- C10: `extract_key_terms` is idempotent — every token of a non-fallback
output survives the stop-word and length filters again and numbers at most
five, and the no-survivor branch returns its input unchanged. -/
theorem C10_extract_key_terms_idempotent (q : List Char) :
    extract_key_terms (extract_key_terms q) = extract_key_terms q := by
  by_cases h : (key_words_of q).isEmpty
  · have h1 : extract_key_terms q = q := by rw [extract_key_terms_eq, if_pos h]
    conv_lhs => rw [h1]
  · have hne : key_words_of q ≠ [] := by
      intro hnil
      rw [hnil] at h
      simp at h
    have h1 : extract_key_terms q = List.intercalate [' '] ((key_words_of q).take 5) := by
      rw [extract_key_terms_eq, if_neg h]
    have h2 : key_words_of (extract_key_terms q) = (key_words_of q).take 5 := by
      rw [h1]
      exact key_words_of_intercalate_take q
    have h3 : (key_words_of q).take 5 ≠ [] := by
      simp [List.take_eq_nil_iff, hne]
    have h4 : ¬((key_words_of (extract_key_terms q)).isEmpty = true) := by
      rw [h2]
      simp [List.isEmpty_iff, h3]
    rw [extract_key_terms_eq (extract_key_terms q), if_neg h4, h2, List.take_take,
      Nat.min_self, h1]

end AgenticRAG
